import Mathlib

/-!
Verification development for the WHIPTube SFU (a many-to-many WebRTC audio
room server).  The Go source is embedded shallowly:

* Go `map[string]V` values are modelled as association lists
  (`List (String × V)`) with Go's update/delete semantics;
* the pion peer-connection object is modelled by the parts of its state the
  SFU observes: connection state, the track ids attached to its RTP senders,
  the remote tracks of its RTP receivers, and the installed local
  description (offers are numbered by a per-connection counter so that
  "a fresh offer" is expressible);
* fallible library calls (RemoveTrack, AddTrack, CreateOffer,
  SetLocalDescription, json.Marshal, WriteJSON, WriteRTCP) are driven by
  boolean failure oracles, so every error path of the source is represented;
* the long-lived handlers (join handshake, OnTrack ingest, teardown,
  connection-state callback, the synchronizer) become explicit state-passing
  functions, and a room-level transition relation `Step` describes one
  completed handler action per transition.
-/

namespace WHIPTube

/-! ## Association-list model of Go maps -/

/-- `m[key]` lookup for a Go `map[string]α` modelled as an association list. -/
def lookupA {α : Type} : List (String × α) → String → Option α
  | [], _ => none
  | (k, v) :: rest, key => if k = key then some v else lookupA rest key

/-- `m[key] = v` for a Go map: replace the binding if the key is present,
otherwise append a new binding. -/
def updateA {α : Type} : List (String × α) → String → α → List (String × α)
  | [], key, v => [(key, v)]
  | (k, w) :: rest, key, v =>
      if k = key then (key, v) :: rest else (k, w) :: updateA rest key v

/-- `delete(m, key)` for a Go map. -/
def eraseA {α : Type} : List (String × α) → String → List (String × α)
  | [], _ => []
  | (k, v) :: rest, key =>
      if k = key then eraseA rest key else (k, v) :: eraseA rest key

/-- The key set of a Go map. -/
def keysA {α : Type} (m : List (String × α)) : List String := m.map (·.1)

theorem lookupA_updateA_self {α : Type} (m : List (String × α)) (key : String) (v : α) :
    lookupA (updateA m key v) key = some v := by
  induction m with
  | nil => simp [updateA, lookupA]
  | cons hd tl ih =>
      obtain ⟨k, w⟩ := hd
      by_cases h : k = key <;> simp [updateA, lookupA, h, ih]

theorem lookupA_eraseA_self {α : Type} (m : List (String × α)) (key : String) :
    lookupA (eraseA m key) key = none := by
  induction m with
  | nil => simp [eraseA, lookupA]
  | cons hd tl ih =>
      obtain ⟨k, w⟩ := hd
      by_cases h : k = key <;> simp [eraseA, lookupA, h, ih]

theorem mem_eraseA {α : Type} {m : List (String × α)} {key : String} {e : String × α}
    (h : e ∈ eraseA m key) : e ∈ m ∧ e.1 ≠ key := by
  induction m with
  | nil => simp [eraseA] at h
  | cons hd tl ih =>
      obtain ⟨k', w⟩ := hd
      simp only [eraseA] at h
      by_cases hk : k' = key
      · rw [if_pos hk] at h
        rcases ih h with ⟨h1, h2⟩
        exact ⟨List.mem_cons_of_mem _ h1, h2⟩
      · rw [if_neg hk] at h
        rcases List.mem_cons.mp h with h | h
        · subst h; exact ⟨List.mem_cons_self _ _, hk⟩
        · rcases ih h with ⟨h1, h2⟩
          exact ⟨List.mem_cons_of_mem _ h1, h2⟩

theorem mem_updateA {α : Type} {m : List (String × α)} {key : String} {v : α} {e : String × α}
    (h : e ∈ updateA m key v) : e ∈ m ∨ e = (key, v) := by
  induction m with
  | nil =>
      simp only [updateA, List.mem_singleton] at h
      exact Or.inr h
  | cons hd tl ih =>
      obtain ⟨k', w⟩ := hd
      simp only [updateA] at h
      by_cases hk : k' = key
      · rw [if_pos hk] at h
        rcases List.mem_cons.mp h with h | h
        · exact Or.inr h
        · exact Or.inl (List.mem_cons_of_mem _ h)
      · rw [if_neg hk] at h
        rcases List.mem_cons.mp h with h | h
        · exact Or.inl (h ▸ List.mem_cons_self _ _)
        · rcases ih h with h' | h'
          · exact Or.inl (List.mem_cons_of_mem _ h')
          · exact Or.inr h'

theorem mem_keysA {α : Type} {m : List (String × α)} {k : String} :
    k ∈ keysA m ↔ ∃ e ∈ m, e.1 = k := by
  simp only [keysA, List.mem_map]

theorem mem_keysA_eraseA {α : Type} {m : List (String × α)} {key k : String}
    (h : k ∈ keysA (eraseA m key)) : k ∈ keysA m ∧ k ≠ key := by
  rcases mem_keysA.mp h with ⟨e, he, hek⟩
  rcases mem_eraseA he with ⟨h1, h2⟩
  exact ⟨mem_keysA.mpr ⟨e, h1, hek⟩, hek ▸ h2⟩

theorem mem_keysA_updateA {α : Type} {m : List (String × α)} {key k : String} {v : α}
    (h : k ∈ keysA (updateA m key v)) : k ∈ keysA m ∨ k = key := by
  rcases mem_keysA.mp h with ⟨e, he, hek⟩
  rcases mem_updateA he with h' | h'
  · exact Or.inl (mem_keysA.mpr ⟨e, h', hek⟩)
  · subst h'
    exact Or.inr hek.symm

/-! ## Data model

`PeerConnectionState` is the Go struct `peer.PeerConnectionState`
(`connection.go` / `main.go` usage: fields `PeerConnection`, `Websocket`,
`Name`).  The pion `*webrtc.PeerConnection` it points to is inlined as the
observable fields `connState`, `senders`, `receivers`, `localDesc`,
`offerSeq`; the pointer identity is `pcId` and the websocket is addressed by
the peer's index, so no separate field is needed. -/

/-- `webrtc.PeerConnectionState` of pion. -/
inductive PCConnState
  | new
  | connecting
  | connected
  | disconnected
  | failed
  | closed
deriving DecidableEq, Repr

/-- A remote (inbound) track as seen through `receiver.Track()`:
its id, stream id and SSRC. -/
structure RemoteTrack where
  id : String
  streamId : String
  ssrc : Nat
deriving DecidableEq, Repr

/-- One entry of `peer.PeerConnectionState` together with the state of the
peer-connection it holds.  A sender slot `none` models an RTP sender whose
`Track()` is nil; a receiver slot `none` models a receiver with no remote
track yet. -/
structure PeerConnectionState where
  pcId : Nat
  connState : PCConnState
  senders : List (Option String)
  receivers : List (Option RemoteTrack)
  localDesc : Option Nat
  offerSeq : Nat
  name : String
deriving DecidableEq, Repr

/-- Track ids attached as senders (`sender.Track().ID()` over non-nil tracks). -/
def senderIds (p : PeerConnectionState) : List String :=
  p.senders.filterMap id

/-- Track ids of the peer's receivers (`receiver.Track().ID()` over non-nil
tracks): the ids of the tracks this peer is uploading. -/
def receiverIds (p : PeerConnectionState) : List String :=
  p.receivers.filterMap (Option.map RemoteTrack.id)

/-- Pointer identities of a peer list. -/
def pcIds (ps : List PeerConnectionState) : List Nat := ps.map (·.pcId)

/-- A server-side forwarding track (`*webrtc.TrackLocalStaticRTP`):
its own id (`trackLocal.ID()`) and stream id. -/
structure TrackLocal where
  localId : String
  streamId : String
deriving DecidableEq, Repr

/-- The Go struct `RoomState` of `main.go` (the lock is the concurrency
discipline, not data, and is not part of the embedded state). -/
structure RoomState where
  peerConnections : List PeerConnectionState
  trackLocals : List (String × TrackLocal)
  trackNames : List (String × String)
  streamNames : List (String × String)
deriving DecidableEq, Repr

/-- A fresh room as built by `getOrCreateRoom`. -/
def emptyRoom : RoomState := ⟨[], [], [], []⟩

/-! ## DispatchKeyFrame (`connection.go` lines 17-34)

`DispatchKeyFrame` takes the room lock for writing (`listLock.Lock()`, not
`RLock`), scans every peer's receivers, skips nil tracks, and emits one
Picture Loss Indication per receiver, addressed to the receiver track's
SSRC.  The result of `WriteRTCP` is discarded (`_ =`), so a write failure
neither aborts the scan nor surfaces as an error. -/

/-- `rtcp.PictureLossIndication` (only the field the source sets). -/
structure PictureLossIndication where
  mediaSSRC : Nat
deriving DecidableEq, Repr

/-- Which lock method the scan used on the room lock. -/
inductive LockKind
  | readLock
  | writeLock
deriving DecidableEq, Repr

/-- Result of one keyframe dispatch: the lock mode used, and the PLI packets
whose write was attempted, in scan order.  There is no error output: the
function cannot fail. -/
structure DispatchResult where
  lockKind : LockKind
  packets : List PictureLossIndication
deriving DecidableEq, Repr

/-- Inner loop of `DispatchKeyFrame` over one peer's receivers.
`writeFail j` tells whether the `WriteRTCP` for receiver `j` errors; the
error is ignored exactly as the source's `_ =` discards it. -/
def dispatchReceivers (writeFail : Nat → Bool) : Nat → List (Option RemoteTrack) →
    List PictureLossIndication
  | _, [] => []
  | j, none :: rest => dispatchReceivers writeFail (j + 1) rest
  | j, some t :: rest =>
      -- `_ = pc.WriteRTCP(...)`: the write happens, its error is dropped
      let _ := writeFail j
      ⟨t.ssrc⟩ :: dispatchReceivers writeFail (j + 1) rest

/-- Outer loop of `DispatchKeyFrame` over the peer list. -/
def dispatchPeers (writeFail : Nat → Nat → Bool) : Nat → List PeerConnectionState →
    List PictureLossIndication
  | _, [] => []
  | i, p :: rest =>
      dispatchReceivers (writeFail i) 0 p.receivers ++ dispatchPeers writeFail (i + 1) rest

/-- `DispatchKeyFrame` (`connection.go` 17-34). `writeFail i j` drives the
`WriteRTCP` outcome for peer `i`, receiver `j`. -/
def DispatchKeyFrame (writeFail : Nat → Nat → Bool)
    (peerConnections : List PeerConnectionState) : DispatchResult :=
  { lockKind := .writeLock
    packets := dispatchPeers writeFail 0 peerConnections }

/-! ## RTP ingest loop (`main.go` lines 365-386)

The `OnTrack` handler reads packets into a 1500-byte buffer, unmarshals
them, clears the header-extension fields, and writes the packet to the
forwarding track.  Read errors, unmarshal errors and write errors each end
the loop. -/

/-- One RTP header extension (`rtp.Extension`). -/
structure RTPExtension where
  id : Nat
  payload : List Nat
deriving DecidableEq, Repr

/-- `rtp.Packet`: header fields and payload (bytes as `Nat`s). -/
structure RTPPacket where
  version : Nat
  padding : Bool
  extension : Bool
  marker : Bool
  payloadType : Nat
  sequenceNumber : Nat
  timestamp : Nat
  ssrc : Nat
  csrc : List Nat
  extensionProfile : Nat
  extensions : List RTPExtension
  payload : List Nat
  paddingSize : Nat
deriving DecidableEq, Repr

/-- `rtpPkt.Extension = false; rtpPkt.Extensions = nil`
(`main.go` 380-381): the only mutation between unmarshal and write. -/
def stripExtensionFields (p : RTPPacket) : RTPPacket :=
  { p with extension := false, extensions := [] }

/-- One iteration's outcome of `t.Read` + `rtpPkt.Unmarshal` + `WriteRTP`:
the read fails, the unmarshal fails, the write of an (unmarshalled) packet
fails, or a packet is processed successfully. -/
inductive IngestEvent
  | readErr
  | unmarshalErr
  | writeErr (p : RTPPacket)
  | packet (p : RTPPacket)
deriving DecidableEq, Repr

/-- The ingest loop (`main.go` 368-386): packets actually written to the
forwarding track, in order.  Any error returns from the loop. -/
def ingestLoop : List IngestEvent → List RTPPacket
  | [] => []
  | .readErr :: _ => []
  | .unmarshalErr :: _ => []
  | .writeErr _ :: _ => []
  | .packet p :: rest => stripExtensionFields p :: ingestLoop rest

/-- The successfully ingested packets: the prompt unmarshalled packets up to
the first error, which is where the loop stops. -/
def ingestedPackets (evs : List IngestEvent) : List RTPPacket :=
  (evs.takeWhile fun e => match e with | .packet _ => true | _ => false).filterMap
    fun e => match e with | .packet p => some p | _ => none

/-! ## The signaling synchronizer (`connection.go` lines 36-147)

`SignalPeerConnections` holds the room lock, runs `attemptSync` until an
attempt returns `false`, and after the 25th consecutive `true` gives up:
it returns (releasing the lock through the `defer`) after spawning a
goroutine that re-invokes the synchronizer 3 seconds later.

Fallible calls are driven by a `SyncEnv` of failure oracles, one oracle per
call site, indexed by the peer's position in the scan. -/

/-- Failure oracles for one `attemptSync` run.  `removeFail i t` is the
outcome of `RemoveTrack` for the sender of track `t` on peer `i`, and so
on, matching the error checks of `connection.go` 63-126 in order. -/
structure SyncEnv where
  removeFail : Nat → String → Bool
  addFail : Nat → String → Bool
  createOfferFail : Nat → Bool
  setLocalFail : Nat → Bool
  marshalOfferFail : Nat → Bool
  marshalDataFail : Nat → Bool
  writeJSONFail : Nat → Bool

/-- An environment in which every library call succeeds. -/
def noFailEnv : SyncEnv :=
  ⟨fun _ _ => false, fun _ _ => false, fun _ => false, fun _ => false,
   fun _ => false, fun _ => false, fun _ => false⟩

/-- The `"offer"` envelope sent to one peer (`connection.go` 108-126): the
freshly created offer plus the room's two label maps. -/
structure OfferMsg where
  event : String
  offer : Nat
  trackNames : List (String × String)
  streamNames : List (String × String)
deriving DecidableEq, Repr

/-- Sender-removal loop (`connection.go` 55-69): every sender with a non-nil
track whose id is no longer a `trackLocals` key is detached; a failing
`RemoveTrack` returns from the attempt at once, leaving later senders
unprocessed.  Returns the updated sender slots and the error flag. -/
def removePass (fail : String → Bool) (tlKeys : List String) :
    List (Option String) → List (Option String) × Bool
  | [] => ([], false)
  | none :: rest =>
      (none :: (removePass fail tlKeys rest).1, (removePass fail tlKeys rest).2)
  | some tid :: rest =>
      if tid ∈ tlKeys then
        (some tid :: (removePass fail tlKeys rest).1, (removePass fail tlKeys rest).2)
      else if fail tid then (some tid :: rest, true)
      else (none :: (removePass fail tlKeys rest).1, (removePass fail tlKeys rest).2)

/-- Track-addition loop (`connection.go` 81-88): every `trackLocals` key not
in `existingSenders` is attached as a new sender; a failing `AddTrack`
returns from the attempt at once.  Returns the appended sender slots and
the error flag. -/
def addPass (fail : String → Bool) (existing : List String) :
    List String → List (Option String) × Bool
  | [] => ([], false)
  | k :: rest =>
      if k ∈ existing then addPass fail existing rest
      else if fail k then ([], true)
      else (some k :: (addPass fail existing rest).1, (addPass fail existing rest).2)

/-- The per-peer body of `attemptSync` (`connection.go` 52-126), for the
non-closed peer at scan position `i`: build `existingSenders` from the
sender and receiver track ids, detach stale senders, attach missing
forwarding tracks, then create an offer, install it as local description,
marshal it with the label maps and write it out.  Returns the updated peer,
the retry flag, and the message written (if the write happened). -/
def syncPeer (env : SyncEnv) (i : Nat) (tlKeys : List String)
    (trackNames streamNames : List (String × String)) (p : PeerConnectionState) :
    PeerConnectionState × Bool × Option OfferMsg :=
  let existing := senderIds p ++ receiverIds p
  let rem := removePass (env.removeFail i) tlKeys p.senders
  if rem.2 then ({ p with senders := rem.1 }, true, none)
  else
    let add := addPass (env.addFail i) existing tlKeys
    let p1 := { p with senders := rem.1 ++ add.1 }
    if add.2 then (p1, true, none)
    else if env.createOfferFail i then (p1, true, none)
    else
      let offer := p.offerSeq + 1
      let p2 := { p1 with offerSeq := offer }
      if env.setLocalFail i then (p2, true, none)
      else
        let p3 := { p2 with localDesc := some offer }
        if env.marshalOfferFail i then (p3, true, none)
        else if env.marshalDataFail i then (p3, true, none)
        else if env.writeJSONFail i then (p3, true, none)
        else (p3, false, some ⟨"offer", offer, trackNames, streamNames⟩)

/-- `attemptSync` (`connection.go` 44-130), processing the peers from scan
position `i`: a peer in the Closed state is spliced out of the list and the
attempt returns `true` ("we modified the slice, start from the beginning");
any per-peer failure also returns `true`.  Returns the peer list as the
function's local slice ends up, the retry flag, and the `"offer"` messages
written during the attempt, tagged with the peer's scan position. -/
def attemptSyncAux (env : SyncEnv) (tlKeys : List String)
    (trackNames streamNames : List (String × String)) :
    Nat → List PeerConnectionState →
    List PeerConnectionState × Bool × List (Nat × OfferMsg)
  | _, [] => ([], false, [])
  | i, p :: rest =>
      if p.connState = .closed then (rest, true, [])
      else
        let res := syncPeer env i tlKeys trackNames streamNames p
        let msgsHere := match res.2.2 with
          | some m => [(i, m)]
          | none => []
        if res.2.1 then (res.1 :: rest, true, msgsHere)
        else
          let tail := attemptSyncAux env tlKeys trackNames streamNames (i + 1) rest
          (res.1 :: tail.1, tail.2.1, msgsHere ++ tail.2.2)

/-- One full `attemptSync` over the peer list. -/
def attemptSync (env : SyncEnv) (trackLocals : List (String × TrackLocal))
    (trackNames streamNames : List (String × String))
    (peerConnections : List PeerConnectionState) :
    List PeerConnectionState × Bool × List (Nat × OfferMsg) :=
  attemptSyncAux env (keysA trackLocals) trackNames streamNames 0 peerConnections

/-- Overall result of one synchronous `SignalPeerConnections` call. -/
structure SignalOutcome where
  peers : List PeerConnectionState
  msgs : List (Nat × OfferMsg)
  attempts : Nat
  /-- `some d`: one further synchronization of the same room was scheduled
  to run after `d` seconds (`go func() { time.Sleep(3s); Signal... }`). -/
  deferredResync : Option Nat
  /-- the loop ended because an attempt returned `false` (`break`). -/
  completed : Bool
  /-- whether the room lock is still held when the call returns; the
  `defer listLock.Unlock()` makes this `false` on every path. -/
  lockHeldAtReturn : Bool

/-- The retry loop of `SignalPeerConnections` (`connection.go` 132-146).
The source counts `syncAttempt` up from 0 and bails out when it reaches 25
before attempting again; here `fuel = 25 - syncAttempt` so the recursion is
structural, and `attemptsDone` is the number of `attemptSync` calls made.
`envs n` supplies the failure oracles of attempt `n`. -/
def signalLoopAux (envs : Nat → SyncEnv) (trackLocals : List (String × TrackLocal))
    (trackNames streamNames : List (String × String)) :
    Nat → Nat → List PeerConnectionState → List (Nat × OfferMsg) → SignalOutcome
  | 0, attemptsDone, peers, acc =>
      -- syncAttempt == 25: schedule a sync in 3 seconds and return
      ⟨peers, acc, attemptsDone, some 3, false, false⟩
  | fuel + 1, attemptsDone, peers, acc =>
      let res := attemptSync (envs attemptsDone) trackLocals trackNames streamNames peers
      if res.2.1 then
        signalLoopAux envs trackLocals trackNames streamNames fuel
          (attemptsDone + 1) res.1 (acc ++ res.2.2)
      else
        ⟨res.1, acc ++ res.2.2, attemptsDone + 1, none, true, false⟩

/-- `SignalPeerConnections` (`connection.go` 37-147). -/
def SignalPeerConnections (envs : Nat → SyncEnv)
    (trackLocals : List (String × TrackLocal))
    (trackNames streamNames : List (String × String))
    (peerConnections : List PeerConnectionState) : SignalOutcome :=
  signalLoopAux envs trackLocals trackNames streamNames 25 0 peerConnections []

/-- The synchronizer's effect on a room, with the peer list it maintains
installed as the room's peer list (the intended propagation of the removals;
the failure of the Go code to write the shrunk slice back into
`room.PeerConnections` is treated separately with `goSliceRemoveCallerView`). -/
def applySignal (envs : Nat → SyncEnv) (r : RoomState) : RoomState :=
  { r with
    peerConnections :=
      (SignalPeerConnections envs r.trackLocals r.trackNames r.streamNames
        r.peerConnections).peers }

/-! ## The room registry (`main.go` lines 116-161) -/

/-- `getOrCreateRoom` (`main.go` 116-133): under the registry write lock,
return an existing room or insert a fresh one.  Returns the updated
registry and the room handle. -/
def getOrCreateRoom (rooms : List (String × RoomState)) (roomID : String) :
    List (String × RoomState) × RoomState :=
  match lookupA rooms roomID with
  | some room => (rooms, room)
  | none => (updateA rooms roomID emptyRoom, emptyRoom)

/-- The splice loop of `removePeerFromRoom` (`main.go` 148-153): drop the
first peer whose peer-connection pointer matches, keep the rest in order. -/
def removeFirstPeer (pcId : Nat) : List PeerConnectionState → List PeerConnectionState
  | [] => []
  | p :: rest => if p.pcId = pcId then rest else p :: removeFirstPeer pcId rest

/-- `removePeerFromRoom` (`main.go` 136-161): look the room up (return if
absent), splice the peer out, and delete the room from the registry exactly
when both the peer list and the forwarded-track map are now empty. -/
def removePeerFromRoom (rooms : List (String × RoomState)) (roomID : String)
    (pcId : Nat) : List (String × RoomState) :=
  match lookupA rooms roomID with
  | none => rooms
  | some room =>
      let peers := removeFirstPeer pcId room.peerConnections
      if peers = [] ∧ room.trackLocals = [] then eraseA rooms roomID
      else updateA rooms roomID { room with peerConnections := peers }

/-! ## Session prelude (`main.go` lines 196-281)

`websocketHandler`'s path from the first message to the registration of the
peer record: read and unmarshal the initial message, require the `join`
event, parse its data, reject an empty room id, default an empty name to
"Anonymous", get-or-create the room, construct the peer-connection, add the
receive-only audio transceiver, and append the peer record to the room. -/

/-- The inner payload of the `join` message. -/
structure JoinData where
  roomId : String
  name : String
deriving DecidableEq, Repr

/-- What the handler can observe of the session's first message:
the read failed, `json.Unmarshal` failed, or a message with some event
whose `data` payload did or did not parse as `JoinData`. -/
inductive FirstMessage
  | readError
  | unmarshalError
  | msg (event : String) (data : Option JoinData)
deriving DecidableEq, Repr

/-- Effects of the session prelude: the registry afterwards, whether a
peer-connection was constructed, and — if the handler reached the
registration — the room id and recorded user name of the appended record. -/
structure PreludeResult where
  rooms : List (String × RoomState)
  pcConstructed : Bool
  registered : Option (String × String)
deriving DecidableEq, Repr

/-- A fresh peer record as appended by the handler (`main.go` 276-281):
new peer-connection, no senders, no inbound tracks yet. -/
def newPeer (pcId : Nat) (name : String) : PeerConnectionState :=
  ⟨pcId, .new, [], [], none, 0, name⟩

/-- The session prelude (`main.go` 196-281).  `pcFail` and
`transceiverFail` drive `webrtc.NewPeerConnection` and
`AddTransceiverFromKind`; on a transceiver failure the installed `defer`
closes the peer-connection and calls `removePeerFromRoom` on the way out. -/
def websocketHandlerPrelude (fm : FirstMessage) (pcFail transceiverFail : Bool)
    (pcId : Nat) (rooms : List (String × RoomState)) : PreludeResult :=
  match fm with
  | .readError => ⟨rooms, false, none⟩
  | .unmarshalError => ⟨rooms, false, none⟩
  | .msg event data =>
      if event ≠ "join" then ⟨rooms, false, none⟩
      else
        match data with
        | none => ⟨rooms, false, none⟩
        | some jd =>
            if jd.roomId = "" then ⟨rooms, false, none⟩
            else
              let userName := if jd.name = "" then "Anonymous" else jd.name
              let gr := getOrCreateRoom rooms jd.roomId
              if pcFail then ⟨gr.1, false, none⟩
              else if transceiverFail then
                ⟨removePeerFromRoom gr.1 jd.roomId pcId, true, none⟩
              else
                let room1 := { gr.2 with peerConnections :=
                  gr.2.peerConnections ++ [newPeer pcId userName] }
                ⟨updateA gr.1 jd.roomId room1, true, some (jd.roomId, userName)⟩

/-! ## Room-level transitions (`main.go` lines 284-394)

Each transition is one completed handler action on the room, performed
under the room's lock. -/

/-- Appending the new peer record under the room lock (`main.go` 276-281). -/
def joinStep (r : RoomState) (pcId : Nat) (name : String) : RoomState :=
  { r with peerConnections := r.peerConnections ++ [newPeer pcId name] }

/-- The owner-name scan of the `OnTrack` handler (`main.go` 327-334):
first peer record whose peer-connection matches; `""` when none does. -/
def findOwnerName (pcId : Nat) : List PeerConnectionState → String
  | [] => ""
  | p :: rest => if p.pcId = pcId then p.name else findOwnerName pcId rest

/-- Pointer identity of the peer at index `i`. -/
def pcIdAt (ps : List PeerConnectionState) (i : Nat) : Nat :=
  ((ps.get? i).map (·.pcId)).getD 0

/-- Update the element at one position of a list. -/
def modifyAt {α : Type} (f : α → α) : Nat → List α → List α
  | _, [] => []
  | 0, x :: rest => f x :: rest
  | n + 1, x :: rest => x :: modifyAt f n rest

/-- Modelled from the spec: `track.AddTrack` (package `webrtc/track`, whose
source is not among the files at hand) creates a forwarding track with codec
parameters copied from the inbound track (§4.7 step 1) and, per §9
("the forwarding track for a given inbound track reuses that same
identifier downstream"), the forwarding track keeps the inbound track's
identifier and stream id; the caller's `room.tracks` gains the entry keyed
by the inbound track's identifier, and the synchronizer is then invoked
(§4.7 step 2) — the synchronizer runs as its own `Step.sync` transition. -/
def trackAddTrack (t : RemoteTrack) : TrackLocal := ⟨t.id, t.streamId⟩

/-- The `OnTrack` handler up to the start of the ingest loop
(`main.go` 322-355): the peer's receiver now carries the remote track, both
label maps gain the owner's display name, the forwarding track built by
`track.AddTrack` is inserted keyed by the origin id, and — in case the
forwarding track's own id differs from the origin id — that id is labelled
too (`main.go` 349-355). -/
def onTrackStep (r : RoomState) (i : Nat) (t : RemoteTrack) : RoomState :=
  let owner := findOwnerName (pcIdAt r.peerConnections i) r.peerConnections
  let peers := modifyAt (fun p => { p with receivers := p.receivers ++ [some t] })
    i r.peerConnections
  let tn1 := updateA r.trackNames t.id owner
  let sn1 := updateA r.streamNames t.streamId owner
  let trackLocal := trackAddTrack t
  let tl1 := updateA r.trackLocals t.id trackLocal
  let tn2 := if trackLocal.localId ≠ t.id then updateA tn1 trackLocal.localId owner else tn1
  { peerConnections := peers, trackLocals := tl1, trackNames := tn2, streamNames := sn1 }

/-- The deferred teardown of the ingest loop (`main.go` 357-363): delete the
track- and stream-label entries, then remove the forwarding track.
`track.RemoveTrack` is modelled from the spec: the teardown "removes the
forwarding track from the room and invokes the synchronizer" (§4.7 step 4);
the synchronizer runs as its own `Step.sync` transition. -/
def ingestTeardown (r : RoomState) (t : RemoteTrack) : RoomState :=
  { r with
    trackNames := eraseA r.trackNames t.id
    streamNames := eraseA r.streamNames t.streamId
    trackLocals := eraseA r.trackLocals t.id }

/-- A connection-state transition reported by the webrtc stack
(`OnConnectionStateChange`, `main.go` 308-320; the handler itself only
closes the connection or re-invokes the synchronizer). -/
def setConnStateStep (r : RoomState) (i : Nat) (s : PCConnState) : RoomState :=
  { r with peerConnections :=
      modifyAt (fun p => { p with connState := s }) i r.peerConnections }

/-- The room-level part of `removePeerFromRoom` (`main.go` 148-153). -/
def removePeerStep (r : RoomState) (pcId : Nat) : RoomState :=
  { r with peerConnections := removeFirstPeer pcId r.peerConnections }

/-- Freshness of a newly arriving remote track id: WebRTC track identifiers
are globally unique, so the id is no existing forwarding-track key and no
sender or receiver id of any peer in the room. -/
def trackIdFresh (id : String) (r : RoomState) : Prop :=
  id ∉ keysA r.trackLocals ∧
    ∀ p ∈ r.peerConnections, id ∉ senderIds p ∧ id ∉ receiverIds p

instance (id : String) (r : RoomState) : Decidable (trackIdFresh id r) := by
  unfold trackIdFresh; infer_instance

/-- One completed handler action on a room. -/
inductive Step : RoomState → RoomState → Prop
  | join (r : RoomState) (pcId : Nat) (name : String)
      (hfresh : pcId ∉ pcIds r.peerConnections) :
      Step r (joinStep r pcId name)
  | sync (r : RoomState) (envs : Nat → SyncEnv) :
      Step r (applySignal envs r)
  | connStateChange (r : RoomState) (i : Nat) (s : PCConnState) :
      Step r (setConnStateStep r i s)
  | remoteTrack (r : RoomState) (i : Nat) (t : RemoteTrack)
      (hi : i < r.peerConnections.length)
      (hfresh : trackIdFresh t.id r) :
      Step r (onTrackStep r i t)
  | ingestEnd (r : RoomState) (t : RemoteTrack) :
      Step r (ingestTeardown r t)
  | removePeer (r : RoomState) (pcId : Nat) :
      Step r (removePeerStep r pcId)

/-- Room states reachable from a fresh room. -/
inductive Reachable : RoomState → Prop
  | init : Reachable emptyRoom
  | step {r r' : RoomState} : Reachable r → Step r r' → Reachable r'

/-! ## Go slice aliasing (`connection.go` line 47 vs `main.go` 317, 394)

`SignalPeerConnections` receives `room.PeerConnections` **by value**.
Inside `attemptSync`, `peerConnections = append(peerConnections[:i],
peerConnections[i+1:]...)` copies the tail one slot to the left within the
shared backing array and rebinds only the callee's local slice header; the
caller's `room.PeerConnections` keeps its original length. -/

/-- Caller-visible contents of the shared backing array after the callee's
in-place removal of index `i`: the prefix before `i`, the shifted tail, and
the untouched final slot (so the last element is duplicated — or, when `i`
is the last index, the caller's view is simply unchanged). -/
def goSliceRemoveCallerView (arr : List PeerConnectionState) (i : Nat) :
    List PeerConnectionState :=
  arr.take i ++ arr.drop (i + 1) ++ arr.drop (arr.length - 1)

/-! ## Lemmas about the per-peer synchronizer body -/

/-- "No loopback": none of the peer's attached sender tracks is one of its
own inbound (receiver) tracks. -/
def NoLoopbackP (p : PeerConnectionState) : Prop :=
  ∀ t ∈ senderIds p, t ∉ receiverIds p

theorem filterMap_id_cons_none {α : Type} (l : List (Option α)) :
    (none :: l).filterMap id = l.filterMap id := rfl

theorem filterMap_id_cons_some {α : Type} (a : α) (l : List (Option α)) :
    (some a :: l).filterMap id = a :: l.filterMap id := rfl

theorem removePass_ids_sub (f : String → Bool) (ks : List String) :
    ∀ ss : List (Option String), ∀ t : String,
      t ∈ (removePass f ks ss).1.filterMap id → t ∈ ss.filterMap id := by
  intro ss
  induction ss with
  | nil => intro t ht; simp [removePass] at ht
  | cons hd rest ih =>
      intro t ht
      cases hd with
      | none =>
          simp only [removePass, filterMap_id_cons_none] at ht ⊢
          exact ih t ht
      | some tid =>
          by_cases hks : tid ∈ ks
          · simp only [removePass, if_pos hks, filterMap_id_cons_some] at ht ⊢
            rcases List.mem_cons.mp ht with rfl | h
            · exact List.mem_cons_self _ _
            · exact List.mem_cons_of_mem _ (ih t h)
          · by_cases hf : f tid
            · simp only [removePass, if_neg hks, if_pos hf] at ht
              exact ht
            · simp only [removePass, if_neg hks, if_neg hf, filterMap_id_cons_none,
                filterMap_id_cons_some] at ht ⊢
              exact List.mem_cons_of_mem _ (ih t ht)

theorem removePass_noerr_ids (f : String → Bool) (ks : List String) :
    ∀ ss : List (Option String), (removePass f ks ss).2 = false →
      ∀ t : String, (t ∈ (removePass f ks ss).1.filterMap id ↔
        t ∈ ss.filterMap id ∧ t ∈ ks) := by
  intro ss
  induction ss with
  | nil => intro _ t; simp [removePass]
  | cons hd rest ih =>
      intro herr t
      cases hd with
      | none =>
          simp only [removePass, filterMap_id_cons_none] at herr ⊢
          exact ih herr t
      | some tid =>
          by_cases hks : tid ∈ ks
          · simp only [removePass, if_pos hks] at herr ⊢
            simp only [filterMap_id_cons_some, List.mem_cons]
            rw [ih herr t]
            constructor
            · rintro (rfl | ⟨h1, h2⟩)
              · exact ⟨Or.inl rfl, hks⟩
              · exact ⟨Or.inr h1, h2⟩
            · rintro ⟨rfl | h1, h2⟩
              · exact Or.inl rfl
              · exact Or.inr ⟨h1, h2⟩
          · by_cases hf : f tid
            · simp [removePass, if_neg hks, hf] at herr
            · simp only [removePass, if_neg hks, if_neg hf, filterMap_id_cons_none,
                filterMap_id_cons_some] at herr ⊢
              rw [ih herr t, List.mem_cons]
              constructor
              · rintro ⟨h1, h2⟩; exact ⟨Or.inr h1, h2⟩
              · rintro ⟨rfl | h1, h2⟩
                · exact absurd h2 hks
                · exact ⟨h1, h2⟩

theorem addPass_ids (f : String → Bool) (existing ks : List String) :
    ∀ t : String, t ∈ (addPass f existing ks).1.filterMap id →
      t ∈ ks ∧ t ∉ existing := by
  induction ks with
  | nil => intro t ht; simp [addPass] at ht
  | cons k rest ih =>
      intro t ht
      by_cases hex : k ∈ existing
      · simp only [addPass, if_pos hex] at ht
        rcases ih t ht with ⟨h1, h2⟩
        exact ⟨List.mem_cons_of_mem _ h1, h2⟩
      · by_cases hf : f k
        · simp [addPass, if_neg hex, hf] at ht
        · simp only [addPass, if_neg hex, if_neg hf, filterMap_id_cons_some] at ht
          rcases List.mem_cons.mp ht with rfl | h
          · exact ⟨List.mem_cons_self _ _, hex⟩
          · rcases ih t h with ⟨h1, h2⟩
            exact ⟨List.mem_cons_of_mem _ h1, h2⟩

theorem addPass_noerr_ids (f : String → Bool) (existing ks : List String) :
    (addPass f existing ks).2 = false →
      ∀ t : String, (t ∈ (addPass f existing ks).1.filterMap id ↔
        t ∈ ks ∧ t ∉ existing) := by
  induction ks with
  | nil => intro _ t; simp [addPass]
  | cons k rest ih =>
      intro herr t
      by_cases hex : k ∈ existing
      · simp only [addPass, if_pos hex] at herr ⊢
        rw [ih herr t, List.mem_cons]
        constructor
        · rintro ⟨h1, h2⟩; exact ⟨Or.inr h1, h2⟩
        · rintro ⟨rfl | h1, h2⟩
          · exact absurd hex h2
          · exact ⟨h1, h2⟩
      · by_cases hf : f k
        · simp [addPass, if_neg hex, hf] at herr
        · simp only [addPass, if_neg hex, if_neg hf, filterMap_id_cons_some] at herr ⊢
          rw [List.mem_cons, ih herr t, List.mem_cons]
          constructor
          · rintro (rfl | ⟨h1, h2⟩)
            · exact ⟨Or.inl rfl, hex⟩
            · exact ⟨Or.inr h1, h2⟩
          · rintro ⟨rfl | h1, h2⟩
            · exact Or.inl rfl
            · exact Or.inr ⟨h1, h2⟩

theorem syncPeer_receivers (env : SyncEnv) (i : Nat) (ks : List String)
    (tn sn : List (String × String)) (p : PeerConnectionState) :
    (syncPeer env i ks tn sn p).1.receivers = p.receivers := by
  simp only [syncPeer]
  repeat' split
  all_goals rfl

theorem syncPeer_pcId (env : SyncEnv) (i : Nat) (ks : List String)
    (tn sn : List (String × String)) (p : PeerConnectionState) :
    (syncPeer env i ks tn sn p).1.pcId = p.pcId := by
  simp only [syncPeer]
  repeat' split
  all_goals rfl

theorem syncPeer_senders_cases (env : SyncEnv) (i : Nat) (ks : List String)
    (tn sn : List (String × String)) (p : PeerConnectionState) :
    (syncPeer env i ks tn sn p).1.senders = (removePass (env.removeFail i) ks p.senders).1 ∨
    (syncPeer env i ks tn sn p).1.senders =
      (removePass (env.removeFail i) ks p.senders).1 ++
        (addPass (env.addFail i) (senderIds p ++ receiverIds p) ks).1 := by
  simp only [syncPeer]
  repeat' split
  all_goals first
    | exact Or.inl rfl
    | exact Or.inr rfl

theorem syncPeer_noerr (env : SyncEnv) (i : Nat) (ks : List String)
    (tn sn : List (String × String)) (p : PeerConnectionState)
    (herr : (syncPeer env i ks tn sn p).2.1 = false) :
    (removePass (env.removeFail i) ks p.senders).2 = false ∧
    (addPass (env.addFail i) (senderIds p ++ receiverIds p) ks).2 = false ∧
    (syncPeer env i ks tn sn p).1.senders =
      (removePass (env.removeFail i) ks p.senders).1 ++
        (addPass (env.addFail i) (senderIds p ++ receiverIds p) ks).1 ∧
    (syncPeer env i ks tn sn p).1.offerSeq = p.offerSeq + 1 ∧
    (syncPeer env i ks tn sn p).1.localDesc = some (p.offerSeq + 1) ∧
    (syncPeer env i ks tn sn p).2.2 = some ⟨"offer", p.offerSeq + 1, tn, sn⟩ := by
  by_cases h1 : (removePass (env.removeFail i) ks p.senders).2 = true
  · simp [syncPeer, h1] at herr
  · by_cases h2 : (addPass (env.addFail i) (senderIds p ++ receiverIds p) ks).2 = true
    · simp [syncPeer, h1, h2] at herr
    · by_cases h3 : env.createOfferFail i = true
      · simp [syncPeer, h1, h2, h3] at herr
      · by_cases h4 : env.setLocalFail i = true
        · simp [syncPeer, h1, h2, h3, h4] at herr
        · by_cases h5 : env.marshalOfferFail i = true
          · simp [syncPeer, h1, h2, h3, h4, h5] at herr
          · by_cases h6 : env.marshalDataFail i = true
            · simp [syncPeer, h1, h2, h3, h4, h5, h6] at herr
            · by_cases h7 : env.writeJSONFail i = true
              · simp [syncPeer, h1, h2, h3, h4, h5, h6, h7] at herr
              · simp [syncPeer, h1, h2, h3, h4, h5, h6, h7]

theorem syncPeer_noLoopback (env : SyncEnv) (i : Nat) (ks : List String)
    (tn sn : List (String × String)) (p : PeerConnectionState)
    (h : NoLoopbackP p) : NoLoopbackP (syncPeer env i ks tn sn p).1 := by
  intro t ht hrecv
  have hrecv' : t ∈ receiverIds p := by
    have := syncPeer_receivers env i ks tn sn p
    unfold receiverIds at hrecv ⊢
    rw [this] at hrecv
    exact hrecv
  unfold senderIds at ht
  rcases syncPeer_senders_cases env i ks tn sn p with hc | hc
  · rw [hc] at ht
    exact h t (removePass_ids_sub _ _ _ t ht) hrecv'
  · rw [hc, List.filterMap_append] at ht
    rcases List.mem_append.mp ht with ht' | ht'
    · exact h t (removePass_ids_sub _ _ _ t ht') hrecv'
    · rcases addPass_ids _ _ _ t ht' with ⟨-, hnex⟩
      exact hnex (List.mem_append.mpr (Or.inr hrecv'))

theorem syncPeer_noerr_senderIds (env : SyncEnv) (i : Nat) (ks : List String)
    (tn sn : List (String × String)) (p : PeerConnectionState)
    (herr : (syncPeer env i ks tn sn p).2.1 = false) (h : NoLoopbackP p) :
    ∀ t : String, t ∈ senderIds (syncPeer env i ks tn sn p).1 ↔
      (t ∈ ks ∧ t ∉ receiverIds p) := by
  obtain ⟨h1, h2, hs, -, -, -⟩ := syncPeer_noerr env i ks tn sn p herr
  intro t
  unfold senderIds
  rw [hs, List.filterMap_append, List.mem_append,
    removePass_noerr_ids _ _ _ h1 t, addPass_noerr_ids _ _ _ h2 t]
  constructor
  · rintro (⟨hmem, hks⟩ | ⟨hks, hnex⟩)
    · exact ⟨hks, h t hmem⟩
    · exact ⟨hks, fun hr => hnex (List.mem_append.mpr (Or.inr hr))⟩
  · rintro ⟨hks, hnrecv⟩
    by_cases hsend : t ∈ senderIds p
    · exact Or.inl ⟨hsend, hks⟩
    · exact Or.inr ⟨hks, fun hex => (List.mem_append.mp hex).elim hsend hnrecv⟩

theorem syncPeer_err_msg (env : SyncEnv) (i : Nat) (ks : List String)
    (tn sn : List (String × String)) (p : PeerConnectionState)
    (herr : (syncPeer env i ks tn sn p).2.1 = true) :
    (syncPeer env i ks tn sn p).2.2 = none := by
  by_cases h1 : (removePass (env.removeFail i) ks p.senders).2 = true
  · simp [syncPeer, h1]
  · by_cases h2 : (addPass (env.addFail i) (senderIds p ++ receiverIds p) ks).2 = true
    · simp [syncPeer, h1, h2]
    · by_cases h3 : env.createOfferFail i = true
      · simp [syncPeer, h1, h2, h3]
      · by_cases h4 : env.setLocalFail i = true
        · simp [syncPeer, h1, h2, h3, h4]
        · by_cases h5 : env.marshalOfferFail i = true
          · simp [syncPeer, h1, h2, h3, h4, h5]
          · by_cases h6 : env.marshalDataFail i = true
            · simp [syncPeer, h1, h2, h3, h4, h5, h6]
            · by_cases h7 : env.writeJSONFail i = true
              · simp [syncPeer, h1, h2, h3, h4, h5, h6, h7]
              · simp [syncPeer, h1, h2, h3, h4, h5, h6, h7] at herr

theorem attemptSyncAux_cons_closed (env : SyncEnv) (ks : List String)
    (tn sn : List (String × String)) (i : Nat) (p : PeerConnectionState)
    (rest : List PeerConnectionState) (hc : p.connState = .closed) :
    attemptSyncAux env ks tn sn i (p :: rest) = (rest, true, []) := by
  simp [attemptSyncAux, hc]

theorem attemptSyncAux_cons_err (env : SyncEnv) (ks : List String)
    (tn sn : List (String × String)) (i : Nat) (p : PeerConnectionState)
    (rest : List PeerConnectionState) (hc : ¬ p.connState = .closed)
    (he : (syncPeer env i ks tn sn p).2.1 = true) :
    attemptSyncAux env ks tn sn i (p :: rest) =
      ((syncPeer env i ks tn sn p).1 :: rest, true, []) := by
  simp [attemptSyncAux, hc, he, syncPeer_err_msg env i ks tn sn p he]

theorem attemptSyncAux_cons_ok (env : SyncEnv) (ks : List String)
    (tn sn : List (String × String)) (i : Nat) (p : PeerConnectionState)
    (rest : List PeerConnectionState) (hc : ¬ p.connState = .closed)
    (he : (syncPeer env i ks tn sn p).2.1 = false) :
    attemptSyncAux env ks tn sn i (p :: rest) =
      ((syncPeer env i ks tn sn p).1 :: (attemptSyncAux env ks tn sn (i + 1) rest).1,
        (attemptSyncAux env ks tn sn (i + 1) rest).2.1,
        (match (syncPeer env i ks tn sn p).2.2 with
          | some m => [(i, m)]
          | none => []) ++ (attemptSyncAux env ks tn sn (i + 1) rest).2.2) := by
  simp [attemptSyncAux, hc, he]

theorem attemptSyncAux_forall {Good : PeerConnectionState → Prop} (env : SyncEnv)
    (ks : List String) (tn sn : List (String × String))
    (hGood : ∀ (j : Nat) (p : PeerConnectionState), Good p → Good (syncPeer env j ks tn sn p).1) :
    ∀ (i : Nat) (ps : List PeerConnectionState), (∀ p ∈ ps, Good p) →
      ∀ q ∈ (attemptSyncAux env ks tn sn i ps).1, Good q := by
  intro i ps
  induction ps generalizing i with
  | nil => intro _ q hq; simp [attemptSyncAux] at hq
  | cons p rest ih =>
      intro hps q hq
      by_cases hc : p.connState = .closed
      · rw [attemptSyncAux_cons_closed env ks tn sn i p rest hc] at hq
        exact hps q (List.mem_cons_of_mem _ hq)
      · by_cases he : (syncPeer env i ks tn sn p).2.1 = true
        · rw [attemptSyncAux_cons_err env ks tn sn i p rest hc he] at hq
          rcases List.mem_cons.mp hq with rfl | hq
          · exact hGood i p (hps p (List.mem_cons_self _ _))
          · exact hps q (List.mem_cons_of_mem _ hq)
        · rw [attemptSyncAux_cons_ok env ks tn sn i p rest hc
            (Bool.not_eq_true _ ▸ he)] at hq
          rcases List.mem_cons.mp hq with rfl | hq
          · exact hGood i p (hps p (List.mem_cons_self _ _))
          · exact ih (i + 1) (fun p' hp' => hps p' (List.mem_cons_of_mem _ hp')) q hq

theorem attemptSyncAux_pcIds (env : SyncEnv) (ks : List String)
    (tn sn : List (String × String)) :
    ∀ (i : Nat) (ps : List PeerConnectionState),
      (pcIds (attemptSyncAux env ks tn sn i ps).1).Sublist (pcIds ps) := by
  intro i ps
  induction ps generalizing i with
  | nil => simp [attemptSyncAux, pcIds]
  | cons p rest ih =>
      by_cases hc : p.connState = .closed
      · rw [attemptSyncAux_cons_closed env ks tn sn i p rest hc]
        simp only [pcIds, List.map_cons]
        exact List.sublist_cons_self _ _
      · by_cases he : (syncPeer env i ks tn sn p).2.1 = true
        · rw [attemptSyncAux_cons_err env ks tn sn i p rest hc he]
          simp only [pcIds, List.map_cons, syncPeer_pcId]
          exact List.Sublist.refl _
        · rw [attemptSyncAux_cons_ok env ks tn sn i p rest hc (Bool.not_eq_true _ ▸ he)]
          simp only [pcIds, List.map_cons, syncPeer_pcId]
          exact (ih (i + 1)).cons₂ _

theorem attemptSyncAux_noretry_senders (env : SyncEnv) (ks : List String)
    (tn sn : List (String × String)) :
    ∀ (i : Nat) (ps : List PeerConnectionState), (∀ p ∈ ps, NoLoopbackP p) →
      (attemptSyncAux env ks tn sn i ps).2.1 = false →
      ∀ q ∈ (attemptSyncAux env ks tn sn i ps).1,
        ∀ t : String, t ∈ senderIds q ↔ (t ∈ ks ∧ t ∉ receiverIds q) := by
  intro i ps
  induction ps generalizing i with
  | nil => intro _ _ q hq; simp [attemptSyncAux] at hq
  | cons p rest ih =>
      intro hps hret q hq
      by_cases hc : p.connState = .closed
      · rw [attemptSyncAux_cons_closed env ks tn sn i p rest hc] at hret
        simp at hret
      · by_cases he : (syncPeer env i ks tn sn p).2.1 = true
        · rw [attemptSyncAux_cons_err env ks tn sn i p rest hc he] at hret
          simp at hret
        · have he' : (syncPeer env i ks tn sn p).2.1 = false := Bool.not_eq_true _ ▸ he
          rw [attemptSyncAux_cons_ok env ks tn sn i p rest hc he'] at hret hq
          rcases List.mem_cons.mp hq with rfl | hq
          · intro t
            have hrecv : receiverIds (syncPeer env i ks tn sn p).1 = receiverIds p := by
              unfold receiverIds
              rw [syncPeer_receivers]
            rw [hrecv]
            exact syncPeer_noerr_senderIds env i ks tn sn p he'
              (hps p (List.mem_cons_self _ _)) t
          · exact ih (i + 1) (fun p' hp' => hps p' (List.mem_cons_of_mem _ hp'))
              hret q hq

theorem attemptSyncAux_noretry_offers (env : SyncEnv) (ks : List String)
    (tn sn : List (String × String)) :
    ∀ (i : Nat) (ps : List PeerConnectionState),
      (attemptSyncAux env ks tn sn i ps).2.1 = false →
      (attemptSyncAux env ks tn sn i ps).2.2 =
        (List.enumFrom i ps).map
          (fun ip => (ip.1, OfferMsg.mk "offer" (ip.2.offerSeq + 1) tn sn)) ∧
      List.Forall₂
        (fun p q => q.offerSeq = p.offerSeq + 1 ∧ q.localDesc = some q.offerSeq)
        ps (attemptSyncAux env ks tn sn i ps).1 := by
  intro i ps
  induction ps generalizing i with
  | nil => intro _; simp [attemptSyncAux]
  | cons p rest ih =>
      intro hret
      by_cases hc : p.connState = .closed
      · rw [attemptSyncAux_cons_closed env ks tn sn i p rest hc] at hret
        simp at hret
      · by_cases he : (syncPeer env i ks tn sn p).2.1 = true
        · rw [attemptSyncAux_cons_err env ks tn sn i p rest hc he] at hret
          simp at hret
        · have he' : (syncPeer env i ks tn sn p).2.1 = false := Bool.not_eq_true _ ▸ he
          rw [attemptSyncAux_cons_ok env ks tn sn i p rest hc he'] at hret ⊢
          obtain ⟨-, -, -, hseq, hloc, hmsg⟩ := syncPeer_noerr env i ks tn sn p he'
          obtain ⟨ihm, ihf⟩ := ih (i + 1) hret
          constructor
          · simp [hmsg, List.enumFrom, ihm]
          · exact List.Forall₂.cons ⟨hseq, by rw [hloc, hseq]⟩ ihf

theorem attemptSync_noLoopback (env : SyncEnv) (tl : List (String × TrackLocal))
    (tn sn : List (String × String)) (ps : List PeerConnectionState)
    (h : ∀ p ∈ ps, NoLoopbackP p) :
    ∀ q ∈ (attemptSync env tl tn sn ps).1, NoLoopbackP q :=
  attemptSyncAux_forall env (keysA tl) tn sn
    (fun j p hp => syncPeer_noLoopback env j (keysA tl) tn sn p hp) 0 ps h

/-! ## Lemmas about the retry loop -/

theorem signalLoopAux_zero (envs : Nat → SyncEnv) (tl : List (String × TrackLocal))
    (tn sn : List (String × String)) (k : Nat) (ps : List PeerConnectionState)
    (acc : List (Nat × OfferMsg)) :
    signalLoopAux envs tl tn sn 0 k ps acc = ⟨ps, acc, k, some 3, false, false⟩ := rfl

theorem signalLoopAux_succ_retry (envs : Nat → SyncEnv) (tl : List (String × TrackLocal))
    (tn sn : List (String × String)) (fuel k : Nat) (ps : List PeerConnectionState)
    (acc : List (Nat × OfferMsg)) (h : (attemptSync (envs k) tl tn sn ps).2.1 = true) :
    signalLoopAux envs tl tn sn (fuel + 1) k ps acc =
      signalLoopAux envs tl tn sn fuel (k + 1) (attemptSync (envs k) tl tn sn ps).1
        (acc ++ (attemptSync (envs k) tl tn sn ps).2.2) := by
  simp [signalLoopAux, h]

theorem signalLoopAux_succ_done (envs : Nat → SyncEnv) (tl : List (String × TrackLocal))
    (tn sn : List (String × String)) (fuel k : Nat) (ps : List PeerConnectionState)
    (acc : List (Nat × OfferMsg)) (h : (attemptSync (envs k) tl tn sn ps).2.1 = false) :
    signalLoopAux envs tl tn sn (fuel + 1) k ps acc =
      ⟨(attemptSync (envs k) tl tn sn ps).1,
        acc ++ (attemptSync (envs k) tl tn sn ps).2.2, k + 1, none, true, false⟩ := by
  simp [signalLoopAux, h]

theorem signalLoopAux_attempts (envs : Nat → SyncEnv) (tl : List (String × TrackLocal))
    (tn sn : List (String × String)) :
    ∀ (fuel k : Nat) (ps : List PeerConnectionState) (acc : List (Nat × OfferMsg)),
      (signalLoopAux envs tl tn sn fuel k ps acc).attempts ≤ k + fuel := by
  intro fuel
  induction fuel with
  | zero => intro k ps acc; rw [signalLoopAux_zero]; exact Nat.le_refl k
  | succ fuel ih =>
      intro k ps acc
      by_cases h : (attemptSync (envs k) tl tn sn ps).2.1 = true
      · rw [signalLoopAux_succ_retry envs tl tn sn fuel k ps acc h]
        calc (signalLoopAux envs tl tn sn fuel (k + 1) _ _).attempts
            ≤ (k + 1) + fuel := ih (k + 1) _ _
          _ = k + (fuel + 1) := by omega
      · rw [signalLoopAux_succ_done envs tl tn sn fuel k ps acc (Bool.not_eq_true _ ▸ h)]
        show k + 1 ≤ k + (fuel + 1)
        omega

theorem signalLoopAux_flags (envs : Nat → SyncEnv) (tl : List (String × TrackLocal))
    (tn sn : List (String × String)) :
    ∀ (fuel k : Nat) (ps : List PeerConnectionState) (acc : List (Nat × OfferMsg)),
      ((signalLoopAux envs tl tn sn fuel k ps acc).completed = true →
        (signalLoopAux envs tl tn sn fuel k ps acc).deferredResync = none) ∧
      ((signalLoopAux envs tl tn sn fuel k ps acc).completed = false →
        (signalLoopAux envs tl tn sn fuel k ps acc).deferredResync = some 3 ∧
        (signalLoopAux envs tl tn sn fuel k ps acc).attempts = k + fuel) ∧
      (signalLoopAux envs tl tn sn fuel k ps acc).lockHeldAtReturn = false := by
  intro fuel
  induction fuel with
  | zero =>
      intro k ps acc
      rw [signalLoopAux_zero]
      exact ⟨fun h => by simp at h, fun _ => ⟨rfl, rfl⟩, rfl⟩
  | succ fuel ih =>
      intro k ps acc
      by_cases h : (attemptSync (envs k) tl tn sn ps).2.1 = true
      · rw [signalLoopAux_succ_retry envs tl tn sn fuel k ps acc h]
        refine ⟨(ih (k + 1) _ _).1, fun hc => ?_, (ih (k + 1) _ _).2.2⟩
        obtain ⟨h1, h2⟩ := (ih (k + 1) _ _).2.1 hc
        exact ⟨h1, by omega⟩
      · rw [signalLoopAux_succ_done envs tl tn sn fuel k ps acc (Bool.not_eq_true _ ▸ h)]
        exact ⟨fun _ => rfl, fun hc => by simp at hc, rfl⟩

theorem signalLoopAux_noLoopback (envs : Nat → SyncEnv) (tl : List (String × TrackLocal))
    (tn sn : List (String × String)) :
    ∀ (fuel k : Nat) (ps : List PeerConnectionState) (acc : List (Nat × OfferMsg)),
      (∀ p ∈ ps, NoLoopbackP p) →
      ∀ q ∈ (signalLoopAux envs tl tn sn fuel k ps acc).peers, NoLoopbackP q := by
  intro fuel
  induction fuel with
  | zero => intro k ps acc h q hq; rw [signalLoopAux_zero] at hq; exact h q hq
  | succ fuel ih =>
      intro k ps acc h q hq
      by_cases hr : (attemptSync (envs k) tl tn sn ps).2.1 = true
      · rw [signalLoopAux_succ_retry envs tl tn sn fuel k ps acc hr] at hq
        exact ih (k + 1) _ _ (attemptSync_noLoopback (envs k) tl tn sn ps h) q hq
      · rw [signalLoopAux_succ_done envs tl tn sn fuel k ps acc (Bool.not_eq_true _ ▸ hr)] at hq
        exact attemptSync_noLoopback (envs k) tl tn sn ps h q hq

theorem signalLoopAux_pcIds (envs : Nat → SyncEnv) (tl : List (String × TrackLocal))
    (tn sn : List (String × String)) :
    ∀ (fuel k : Nat) (ps : List PeerConnectionState) (acc : List (Nat × OfferMsg)),
      (pcIds (signalLoopAux envs tl tn sn fuel k ps acc).peers).Sublist (pcIds ps) := by
  intro fuel
  induction fuel with
  | zero => intro k ps acc; rw [signalLoopAux_zero]
  | succ fuel ih =>
      intro k ps acc
      by_cases hr : (attemptSync (envs k) tl tn sn ps).2.1 = true
      · rw [signalLoopAux_succ_retry envs tl tn sn fuel k ps acc hr]
        exact (ih (k + 1) _ _).trans (attemptSyncAux_pcIds (envs k) (keysA tl) tn sn 0 ps)
      · rw [signalLoopAux_succ_done envs tl tn sn fuel k ps acc (Bool.not_eq_true _ ▸ hr)]
        exact attemptSyncAux_pcIds (envs k) (keysA tl) tn sn 0 ps

theorem signalLoopAux_completed_senders (envs : Nat → SyncEnv)
    (tl : List (String × TrackLocal)) (tn sn : List (String × String)) :
    ∀ (fuel k : Nat) (ps : List PeerConnectionState) (acc : List (Nat × OfferMsg)),
      (∀ p ∈ ps, NoLoopbackP p) →
      (signalLoopAux envs tl tn sn fuel k ps acc).completed = true →
      ∀ q ∈ (signalLoopAux envs tl tn sn fuel k ps acc).peers,
        ∀ t : String, t ∈ senderIds q ↔ (t ∈ keysA tl ∧ t ∉ receiverIds q) := by
  intro fuel
  induction fuel with
  | zero =>
      intro k ps acc _ hc
      rw [signalLoopAux_zero] at hc
      simp at hc
  | succ fuel ih =>
      intro k ps acc h hc q hq
      by_cases hr : (attemptSync (envs k) tl tn sn ps).2.1 = true
      · rw [signalLoopAux_succ_retry envs tl tn sn fuel k ps acc hr] at hc hq
        exact ih (k + 1) _ _ (attemptSync_noLoopback (envs k) tl tn sn ps h) hc q hq
      · rw [signalLoopAux_succ_done envs tl tn sn fuel k ps acc (Bool.not_eq_true _ ▸ hr)] at hq
        exact attemptSyncAux_noretry_senders (envs k) (keysA tl) tn sn 0 ps h
          (Bool.not_eq_true _ ▸ hr) q hq

/-! ## Room invariants over reachable states -/

theorem mem_keysA_updateA_of_mem {α : Type} {m : List (String × α)} {key k : String}
    {v : α} (h : k ∈ keysA m) : k ∈ keysA (updateA m key v) := by
  induction m with
  | nil => simp [keysA] at h
  | cons hd tl ih =>
      obtain ⟨k', w⟩ := hd
      by_cases hk : k' = key
      · subst hk
        simp only [updateA, if_pos rfl, keysA, List.map_cons] at h ⊢
        rcases List.mem_cons.mp h with rfl | h
        · exact List.mem_cons_self _ _
        · exact List.mem_cons_of_mem _ h
      · simp only [updateA, if_neg hk, keysA, List.map_cons] at h ⊢
        rcases List.mem_cons.mp h with rfl | h
        · exact List.mem_cons_self _ _
        · exact List.mem_cons_of_mem _ (ih h)

theorem self_mem_keysA_updateA {α : Type} (m : List (String × α)) (key : String) (v : α) :
    key ∈ keysA (updateA m key v) := by
  induction m with
  | nil => simp [updateA, keysA]
  | cons hd tl ih =>
      obtain ⟨k', w⟩ := hd
      by_cases hk : k' = key
      · simp [updateA, if_pos hk, keysA]
      · simp only [updateA, if_neg hk, keysA, List.map_cons]
        exact List.mem_cons_of_mem _ ih

theorem mem_keysA_eraseA_of_ne {α : Type} {m : List (String × α)} {key k : String}
    (h : k ∈ keysA m) (hne : k ≠ key) : k ∈ keysA (eraseA m key) := by
  induction m with
  | nil => simp [keysA] at h
  | cons hd tl ih =>
      obtain ⟨k', w⟩ := hd
      simp only [keysA, List.map_cons] at h
      by_cases hk : k' = key
      · rcases List.mem_cons.mp h with rfl | h
        · exact absurd hk hne
        · simp only [eraseA, if_pos hk]
          exact ih h
      · simp only [eraseA, if_neg hk, keysA, List.map_cons]
        rcases List.mem_cons.mp h with rfl | h
        · exact List.mem_cons_self _ _
        · exact List.mem_cons_of_mem _ (ih h)

theorem mem_modifyAt {α : Type} (f : α → α) :
    ∀ (i : Nat) (l : List α), ∀ x ∈ modifyAt f i l, x ∈ l ∨ ∃ y ∈ l, x = f y := by
  intro i l
  induction l generalizing i with
  | nil => intro x hx; simp [modifyAt] at hx
  | cons hd tl ih =>
      intro x hx
      cases i with
      | zero =>
          rcases List.mem_cons.mp hx with rfl | hx
          · exact Or.inr ⟨hd, List.mem_cons_self _ _, rfl⟩
          · exact Or.inl (List.mem_cons_of_mem _ hx)
      | succ n =>
          rcases List.mem_cons.mp hx with rfl | hx
          · exact Or.inl (List.mem_cons_self _ _)
          · rcases ih n x hx with h | ⟨y, hy, hxy⟩
            · exact Or.inl (List.mem_cons_of_mem _ h)
            · exact Or.inr ⟨y, List.mem_cons_of_mem _ hy, hxy⟩

theorem map_modifyAt {α β : Type} (g : α → β) (f : α → α)
    (hgf : ∀ x, g (f x) = g x) :
    ∀ (i : Nat) (l : List α), (modifyAt f i l).map g = l.map g := by
  intro i l
  induction l generalizing i with
  | nil => simp [modifyAt]
  | cons hd tl ih =>
      cases i with
      | zero => simp [modifyAt, hgf]
      | succ n => simp [modifyAt, ih n]

theorem removeFirstPeer_sublist (pcId : Nat) :
    ∀ ps : List PeerConnectionState, (removeFirstPeer pcId ps).Sublist ps := by
  intro ps
  induction ps with
  | nil => simp [removeFirstPeer]
  | cons p rest ih =>
      by_cases h : p.pcId = pcId
      · simp only [removeFirstPeer, if_pos h]
        exact List.sublist_cons_self _ _
      · simp only [removeFirstPeer, if_neg h]
        exact ih.cons₂ _

theorem receiverIds_append_some (p : PeerConnectionState) (t : RemoteTrack) :
    receiverIds { p with receivers := p.receivers ++ [some t] } =
      receiverIds p ++ [t.id] := by
  unfold receiverIds
  simp [List.filterMap_append]

/-- The inductive invariant of a room: no peer has a loopback sender, every
label key names a forwarding track, and peer-connection identities are
pairwise distinct. -/
def RoomInv (r : RoomState) : Prop :=
  (∀ p ∈ r.peerConnections, NoLoopbackP p) ∧
  (∀ k ∈ keysA r.trackNames, k ∈ keysA r.trackLocals) ∧
  (pcIds r.peerConnections).Nodup

theorem roomInv_empty : RoomInv emptyRoom := by
  refine ⟨?_, ?_, ?_⟩
  · intro p hp; simp [emptyRoom] at hp
  · intro k hk; simp [emptyRoom, keysA] at hk
  · simp [emptyRoom, pcIds]

theorem roomInv_join (r : RoomState) (pcId : Nat) (name : String)
    (hfresh : pcId ∉ pcIds r.peerConnections) (h : RoomInv r) :
    RoomInv (joinStep r pcId name) := by
  obtain ⟨h1, h2, h3⟩ := h
  refine ⟨?_, h2, ?_⟩
  · intro p hp
    rcases List.mem_append.mp hp with hp | hp
    · exact h1 p hp
    · rcases List.mem_singleton.mp hp with rfl
      intro t ht
      simp [newPeer, senderIds] at ht
  · show (pcIds (r.peerConnections ++ [newPeer pcId name])).Nodup
    unfold pcIds
    rw [List.map_append]
    rw [List.nodup_append]
    refine ⟨h3, by simp [newPeer, pcIds], ?_⟩
    intro x hx hx'
    simp only [List.map_cons, List.map_nil, List.mem_singleton, newPeer] at hx'
    subst hx'
    exact hfresh hx

theorem roomInv_sync (r : RoomState) (envs : Nat → SyncEnv) (h : RoomInv r) :
    RoomInv (applySignal envs r) := by
  obtain ⟨h1, h2, h3⟩ := h
  refine ⟨?_, h2, ?_⟩
  · intro p hp
    exact signalLoopAux_noLoopback envs r.trackLocals r.trackNames r.streamNames
      25 0 r.peerConnections [] h1 p hp
  · exact (signalLoopAux_pcIds envs r.trackLocals r.trackNames r.streamNames
      25 0 r.peerConnections []).nodup h3

theorem roomInv_connState (r : RoomState) (i : Nat) (s : PCConnState) (h : RoomInv r) :
    RoomInv (setConnStateStep r i s) := by
  obtain ⟨h1, h2, h3⟩ := h
  refine ⟨?_, h2, ?_⟩
  · intro p hp
    rcases mem_modifyAt _ i r.peerConnections p hp with hp | ⟨y, hy, rfl⟩
    · exact h1 p hp
    · intro t ht
      exact h1 y hy t ht
  · show (pcIds (modifyAt _ i r.peerConnections)).Nodup
    unfold pcIds
    rw [map_modifyAt (fun x => x.pcId)
      (fun p => { p with connState := s }) (fun x => rfl) i r.peerConnections]
    exact h3

theorem roomInv_onTrack (r : RoomState) (i : Nat) (t : RemoteTrack)
    (hfresh : trackIdFresh t.id r) (h : RoomInv r) :
    RoomInv (onTrackStep r i t) := by
  obtain ⟨h1, h2, h3⟩ := h
  obtain ⟨-, hfr⟩ := hfresh
  refine ⟨?_, ?_, ?_⟩
  · intro p hp
    rcases mem_modifyAt _ i r.peerConnections p hp with hp | ⟨y, hy, rfl⟩
    · exact h1 p hp
    · intro s hs
      rw [receiverIds_append_some]
      intro hmem
      rcases List.mem_append.mp hmem with hmem | hmem
      · exact h1 y hy s hs hmem
      · rcases List.mem_singleton.mp hmem with rfl
        exact (hfr y hy).1 hs
  · intro k hk
    simp only [onTrackStep, trackAddTrack, ne_eq, not_true_eq_false, if_false,
      ite_not] at hk ⊢
    rcases mem_keysA_updateA hk with hk' | rfl
    · exact mem_keysA_updateA_of_mem (h2 k hk')
    · exact self_mem_keysA_updateA _ _ _
  · show (pcIds (modifyAt _ i r.peerConnections)).Nodup
    unfold pcIds
    rw [map_modifyAt (fun x => x.pcId)
      (fun p => { p with receivers := p.receivers ++ [some t] }) (fun x => rfl)
      i r.peerConnections]
    exact h3

theorem roomInv_teardown (r : RoomState) (t : RemoteTrack) (h : RoomInv r) :
    RoomInv (ingestTeardown r t) := by
  obtain ⟨h1, h2, h3⟩ := h
  refine ⟨h1, ?_, h3⟩
  intro k hk
  obtain ⟨hk', hne⟩ := mem_keysA_eraseA hk
  exact mem_keysA_eraseA_of_ne (h2 k hk') hne

theorem roomInv_removePeer (r : RoomState) (pcId : Nat) (h : RoomInv r) :
    RoomInv (removePeerStep r pcId) := by
  obtain ⟨h1, h2, h3⟩ := h
  refine ⟨?_, h2, ?_⟩
  · intro p hp
    exact h1 p ((removeFirstPeer_sublist pcId r.peerConnections).subset hp)
  · show (pcIds (removeFirstPeer pcId r.peerConnections)).Nodup
    unfold pcIds at h3 ⊢
    exact (List.Sublist.map (fun x => x.pcId)
      (removeFirstPeer_sublist pcId r.peerConnections)).nodup h3

/-- Every reachable room state satisfies the room invariant. -/
theorem reachable_inv {r : RoomState} (h : Reachable r) : RoomInv r := by
  induction h with
  | init => exact roomInv_empty
  | step _ hs ih =>
      cases hs with
      | join pcId name hfresh => exact roomInv_join _ pcId name hfresh ih
      | sync envs => exact roomInv_sync _ envs ih
      | connStateChange i s => exact roomInv_connState _ i s ih
      | remoteTrack i t hi hfresh => exact roomInv_onTrack _ i t hfresh ih
      | ingestEnd t => exact roomInv_teardown _ t ih
      | removePeer pcId => exact roomInv_removePeer _ pcId ih

/-! ## Supporting lemmas for the claim theorems -/

theorem dispatchReceivers_eq (f : Nat → Bool) :
    ∀ (j : Nat) (rs : List (Option RemoteTrack)),
      dispatchReceivers f j rs =
        rs.filterMap (Option.map fun t => PictureLossIndication.mk t.ssrc) := by
  intro j rs
  induction rs generalizing j with
  | nil => simp [dispatchReceivers]
  | cons hd tail ih =>
      cases hd with
      | none => simp [dispatchReceivers, ih (j + 1)]
      | some t => simp [dispatchReceivers, ih (j + 1)]

theorem dispatchPeers_eq (f : Nat → Nat → Bool) :
    ∀ (i : Nat) (ps : List PeerConnectionState),
      dispatchPeers f i ps = ps.flatMap
        (fun p => p.receivers.filterMap
          (Option.map fun t => PictureLossIndication.mk t.ssrc)) := by
  intro i ps
  induction ps generalizing i with
  | nil => simp [dispatchPeers]
  | cons p rest ih =>
      simp [dispatchPeers, dispatchReceivers_eq, ih (i + 1)]

theorem ingestedPackets_nil : ingestedPackets [] = [] := rfl

theorem ingestedPackets_readErr (rest : List IngestEvent) :
    ingestedPackets (.readErr :: rest) = [] := rfl

theorem ingestedPackets_unmarshalErr (rest : List IngestEvent) :
    ingestedPackets (.unmarshalErr :: rest) = [] := rfl

theorem ingestedPackets_writeErr (p : RTPPacket) (rest : List IngestEvent) :
    ingestedPackets (.writeErr p :: rest) = [] := rfl

theorem ingestedPackets_packet (p : RTPPacket) (rest : List IngestEvent) :
    ingestedPackets (.packet p :: rest) = p :: ingestedPackets rest := rfl

theorem findOwnerName_get (ps : List PeerConnectionState) :
    ∀ (i : Nat) (hi : i < ps.length), (pcIds ps).Nodup →
      findOwnerName ((ps.get ⟨i, hi⟩).pcId) ps = (ps.get ⟨i, hi⟩).name := by
  induction ps with
  | nil => intro i hi; simp at hi
  | cons p rest ih =>
      intro i hi hnd
      have hnd' : p.pcId ∉ pcIds rest ∧ (pcIds rest).Nodup := by
        unfold pcIds at hnd ⊢
        rw [List.map_cons] at hnd
        exact List.nodup_cons.mp hnd
      cases i with
      | zero => simp [findOwnerName]
      | succ n =>
          have hn : n < rest.length := by
            simpa using hi
          have hget : ((p :: rest).get ⟨n + 1, hi⟩) = rest.get ⟨n, hn⟩ := rfl
          rw [hget]
          have hmem : (rest.get ⟨n, hn⟩).pcId ∈ pcIds rest := by
            unfold pcIds
            exact List.mem_map.mpr ⟨rest.get ⟨n, hn⟩, List.get_mem rest n hn, rfl⟩
          have hne : ¬ p.pcId = (rest.get ⟨n, hn⟩).pcId := by
            intro he
            exact hnd'.1 (he ▸ hmem)
          simp only [findOwnerName, if_neg hne]
          exact ih n hn hnd'.2

theorem pcIdAt_get (ps : List PeerConnectionState) (i : Nat) (hi : i < ps.length) :
    pcIdAt ps i = (ps.get ⟨i, hi⟩).pcId := by
  unfold pcIdAt
  rw [List.get?_eq_get hi]
  rfl

/-! ## The claims -/

/-- Claim C2: every synchronous `SignalPeerConnections` call terminates (the
Lean model is a total function); it makes at most 25 `attemptSync` calls;
the room lock is released on return; and exactly when the loop did not end
with a successful attempt — i.e. all 25 consecutive attempts signalled
retry — a single further synchronization of the same room is scheduled with
a 3-second delay instead of a 26th inline attempt. -/
theorem claim2_retry_bound : ∀ (envs : Nat → SyncEnv)
    (tl : List (String × TrackLocal)) (tn sn : List (String × String))
    (ps : List PeerConnectionState),
    (SignalPeerConnections envs tl tn sn ps).attempts ≤ 25 ∧
    (SignalPeerConnections envs tl tn sn ps).lockHeldAtReturn = false ∧
    ((SignalPeerConnections envs tl tn sn ps).completed = false ↔
      ((SignalPeerConnections envs tl tn sn ps).deferredResync = some 3 ∧
        (SignalPeerConnections envs tl tn sn ps).attempts = 25)) := by
  intro envs tl tn sn ps
  have hf := signalLoopAux_flags envs tl tn sn 25 0 ps []
  have ha := signalLoopAux_attempts envs tl tn sn 25 0 ps []
  refine ⟨by simpa using ha, hf.2.2, ?_, ?_⟩
  · intro hc
    have := hf.2.1 hc
    simpa using this
  · rintro ⟨hd, -⟩
    cases hcv : (SignalPeerConnections envs tl tn sn ps).completed
    · rfl
    · have hn : (SignalPeerConnections envs tl tn sn ps).deferredResync = none :=
        hf.1 hcv
      rw [hn] at hd
      simp at hd

/-- Claim C3: every packet the ingest loop writes to the forwarding track is
the unmarshalled packet with the header-extension flag cleared and the
extensions list emptied, and `stripExtensionFields` changes nothing else:
every other header field and the payload are exactly those of the ingested
packet. -/
theorem claim3_ingest_strips_extensions : ∀ evs : List IngestEvent,
    ingestLoop evs = (ingestedPackets evs).map stripExtensionFields ∧
    ∀ p : RTPPacket,
      (stripExtensionFields p).extension = false ∧
      (stripExtensionFields p).extensions = [] ∧
      (stripExtensionFields p).version = p.version ∧
      (stripExtensionFields p).padding = p.padding ∧
      (stripExtensionFields p).marker = p.marker ∧
      (stripExtensionFields p).payloadType = p.payloadType ∧
      (stripExtensionFields p).sequenceNumber = p.sequenceNumber ∧
      (stripExtensionFields p).timestamp = p.timestamp ∧
      (stripExtensionFields p).ssrc = p.ssrc ∧
      (stripExtensionFields p).csrc = p.csrc ∧
      (stripExtensionFields p).extensionProfile = p.extensionProfile ∧
      (stripExtensionFields p).payload = p.payload ∧
      (stripExtensionFields p).paddingSize = p.paddingSize := by
  intro evs
  constructor
  · induction evs with
    | nil => rfl
    | cons e rest ih =>
        cases e with
        | readErr => rfl
        | unmarshalErr => rfl
        | writeErr p => rfl
        | packet p =>
            rw [ingestedPackets_packet, List.map_cons, ← ih]
            rfl
  · intro p
    exact ⟨rfl, rfl, rfl, rfl, rfl, rfl, rfl, rfl, rfl, rfl, rfl, rfl, rfl⟩

/-- The track Carol uploads in the C4 counterexample trace. -/
def trackCarol4 : RemoteTrack := ⟨"trk-c4", "stm-c4", 44⟩

/-- Carol's room right after her join registered her. -/
def roomJoined4 : RoomState := ⟨[newPeer 7 "Carol"], [], [], []⟩

/-- Carol's room after her remote track arrived (`OnTrack` ran). -/
def roomTracked4 : RoomState := onTrackStep roomJoined4 0 trackCarol4

/-- The registry after the session teardown's `removePeerFromRoom`
(`main.go` 259-262) runs while the ingest loop is still alive: Carol is
spliced out, but `TrackLocals` still holds her forwarding track, so the
emptiness test fails and the room stays registered. -/
def reg4AfterRemove : List (String × RoomState) :=
  removePeerFromRoom [("r", roomTracked4)] "r" 7

/-- The registry after `peerConnection.Close()` then ends the ingest loop
and its deferred cleanup (`main.go` 357-363) deletes the labels and the
forwarding track: the cleanup holds only the room pointer, so it reaches
the registry purely as an update of the room value — it contains no
deletion of the registry entry, and the session's single
`removePeerFromRoom` call has already been consumed. -/
def reg4Final : List (String × RoomState) :=
  match lookupA reg4AfterRemove "r" with
  | some room => updateA reg4AfterRemove "r" (ingestTeardown room trackCarol4)
  | none => reg4AfterRemove

/-- Claim C4 (counterexample): a complete single-session teardown in which
`removePeerFromRoom` precedes the ingest loop's deferred cleanup ends with
room `"r"` still registered although its peer list and its forwarded-track
map are both empty — the remove-peer call found the track map non-empty and
kept the room, and the later track removal only rewrites the room value.
So a reachable state with an empty-of-both room that is never deleted
exists, refuting the claim's eventual-deletion half. -/
theorem claim4_counterexample :
    lookupA reg4AfterRemove "r" =
      some ⟨[], [("trk-c4", ⟨"trk-c4", "stm-c4"⟩)],
        [("trk-c4", "Carol")], [("stm-c4", "Carol")]⟩ ∧
    reg4Final = [("r", (⟨[], [], [], []⟩ : RoomState))] ∧
    lookupA reg4Final "r" = some (⟨[], [], [], []⟩ : RoomState) := by
  refine ⟨by decide, by decide, by decide⟩

/-- Concrete registry for the C4 witness: room `"r2"` holds one peer and no
forwarded tracks (scenario 3 of the spec: Carol joins, uploads nothing). -/
def roomCarol : RoomState :=
  ⟨[⟨5, PCConnState.connected, [], [], none, 0, "Carol"⟩], [], [], []⟩

/-- Claim C4 (amended): rooms are deleted only inside `removePeerFromRoom`,
and there exactly when the remaining peer list and the forwarded-track map
are both empty — after any remove-peer call on a registered room the
identifier is absent iff both are empty, so the last peer's teardown
deletes the room precisely when it runs after the forwarded tracks are
gone; mutations of the room value itself (`OnTrack` registration, ingest
teardown, synchronization) never remove the registry entry, which is why a
track map emptied after the last remove-peer call leaves the empty room
registered. -/
theorem claim4_registry_gc_amended (rooms : List (String × RoomState))
    (roomID : String) (pcId : Nat) (room : RoomState)
    (h : lookupA rooms roomID = some room) :
    (lookupA (removePeerFromRoom rooms roomID pcId) roomID = none ↔
      (removeFirstPeer pcId room.peerConnections = [] ∧ room.trackLocals = [])) ∧
    ∀ room' : RoomState, lookupA (updateA rooms roomID room') roomID = some room' := by
  constructor
  · simp only [removePeerFromRoom, h]
    by_cases hc : removeFirstPeer pcId room.peerConnections = [] ∧ room.trackLocals = []
    · simp only [if_pos hc]
      simp [lookupA_eraseA_self, hc]
    · simp only [if_neg hc]
      simp [lookupA_updateA_self, hc]
  · exact fun room' => lookupA_updateA_self rooms roomID room'

theorem claim4_amended_witness :
    lookupA [("r2", roomCarol)] "r2" = some roomCarol ∧
    ((lookupA (removePeerFromRoom [("r2", roomCarol)] "r2" 5) "r2" = none ↔
      (removeFirstPeer 5 roomCarol.peerConnections = [] ∧ roomCarol.trackLocals = [])) ∧
    ∀ room' : RoomState, lookupA (updateA [("r2", roomCarol)] "r2" room') "r2" =
      some room') :=
  ⟨by decide,
    claim4_registry_gc_amended [("r2", roomCarol)] "r2" 5 roomCarol (by decide)⟩

/-- The closed peer of the C6 failing input. -/
def closedCarol : PeerConnectionState :=
  ⟨0, PCConnState.closed, [], [], none, 0, "Carol"⟩

/-- Claim C6 (code bug): `attemptSync` does splice the Closed peer out of
the peer list it scans and signals retry — but that list is the callee's
by-value copy of the slice header.  Evaluated at the failing input (a room
whose peer list is exactly one Closed peer), the synchronizer's local list
ends empty and the call completes, while the caller-visible
`room.PeerConnections` backing array still contains the Closed peer. -/
theorem claim6_closed_peer_room_view :
    (attemptSync noFailEnv [] [] [] [closedCarol]).1 = [] ∧
    (attemptSync noFailEnv [] [] [] [closedCarol]).2.1 = true ∧
    (SignalPeerConnections (fun _ => noFailEnv) [] [] [] [closedCarol]).peers = [] ∧
    (SignalPeerConnections (fun _ => noFailEnv) [] [] [] [closedCarol]).completed = true ∧
    goSliceRemoveCallerView [closedCarol] 0 = [closedCarol] ∧
    closedCarol.connState = PCConnState.closed := by
  refine ⟨by decide, by decide, by decide, by decide, by decide, by decide⟩

/-- Claim C7: a first message that fails to unmarshal, carries an event
other than `join`, has join data that fails to parse, or an empty room id
terminates the session before any room is created (registry unchanged),
before any peer record is registered, and before a peer-connection is
constructed. -/
theorem claim7_bad_first_message (fm : FirstMessage) (pcFail transceiverFail : Bool)
    (pcId : Nat) (rooms : List (String × RoomState))
    (hbad : fm = .unmarshalError ∨
      (∃ e d, fm = .msg e d ∧ e ≠ "join") ∨
      (∃ e, fm = .msg e none) ∨
      (∃ e jd, fm = .msg e (some jd) ∧ jd.roomId = "")) :
    websocketHandlerPrelude fm pcFail transceiverFail pcId rooms =
      ⟨rooms, false, none⟩ := by
  rcases hbad with rfl | ⟨e, d, rfl, he⟩ | ⟨e, rfl⟩ | ⟨e, jd, rfl, hjd⟩
  · rfl
  · simp [websocketHandlerPrelude, he]
  · by_cases he : e = "join"
    · simp [websocketHandlerPrelude, he]
    · simp [websocketHandlerPrelude, he]
  · by_cases he : e = "join"
    · simp [websocketHandlerPrelude, he, hjd]
    · simp [websocketHandlerPrelude, he]

theorem claim7_witness :
    ((FirstMessage.msg "join" (some ⟨"", "Carol"⟩)) = FirstMessage.unmarshalError ∨
      (∃ e d, (FirstMessage.msg "join" (some ⟨"", "Carol"⟩)) = .msg e d ∧ e ≠ "join") ∨
      (∃ e, (FirstMessage.msg "join" (some ⟨"", "Carol"⟩)) = .msg e none) ∨
      (∃ e jd, (FirstMessage.msg "join" (some ⟨"", "Carol"⟩)) = .msg e (some jd) ∧
        jd.roomId = "")) ∧
    websocketHandlerPrelude (.msg "join" (some ⟨"", "Carol"⟩)) false false 9 [] =
      ⟨[], false, none⟩ :=
  ⟨Or.inr (Or.inr (Or.inr ⟨"join", ⟨"", "Carol"⟩, rfl, rfl⟩)),
    claim7_bad_first_message (.msg "join" (some ⟨"", "Carol"⟩)) false false 9 []
      (Or.inr (Or.inr (Or.inr ⟨"join", ⟨"", "Carol"⟩, rfl, rfl⟩)))⟩

/-- Claim C9: `DispatchKeyFrame` takes the room lock for writing for the
whole scan, emits exactly one Picture Loss Indication per receiver with a
non-nil track — addressed to that receiver track's SSRC, in scan order —
and ignores RTCP write failures: the emitted packets do not depend on which
writes fail, and the function has no error outcome at all. -/
theorem claim9_dispatch_keyframe : ∀ (writeFail : Nat → Nat → Bool)
    (ps : List PeerConnectionState),
    (DispatchKeyFrame writeFail ps).lockKind = LockKind.writeLock ∧
    (DispatchKeyFrame writeFail ps).packets = ps.flatMap
      (fun p => p.receivers.filterMap
        (Option.map fun t => PictureLossIndication.mk t.ssrc)) ∧
    ∀ writeFail' : Nat → Nat → Bool,
      (DispatchKeyFrame writeFail' ps).packets =
        (DispatchKeyFrame writeFail ps).packets := by
  intro writeFail ps
  refine ⟨rfl, dispatchPeers_eq writeFail 0 ps, fun writeFail' => ?_⟩
  show dispatchPeers writeFail' 0 ps = dispatchPeers writeFail 0 ps
  rw [dispatchPeers_eq, dispatchPeers_eq]

/-- Claim C10: on a completed synchronization attempt, every peer in scan
order is sent exactly one `"offer"` message carrying a freshly created
offer (the peer's next offer number) together with the `trackNames` and
`streamNames` maps, and that offer is installed as the peer's local
description — unconditionally, with no test for whether any sender was
added or removed, so a re-run over an already-synchronized room still
sends one fresh offer per peer. -/
theorem claim10_offer_every_completed_attempt (env : SyncEnv)
    (tl : List (String × TrackLocal)) (tn sn : List (String × String))
    (ps : List PeerConnectionState)
    (hdone : (attemptSync env tl tn sn ps).2.1 = false) :
    (attemptSync env tl tn sn ps).2.2 =
      (List.enumFrom 0 ps).map
        (fun ip => (ip.1, OfferMsg.mk "offer" (ip.2.offerSeq + 1) tn sn)) ∧
    List.Forall₂
      (fun p q => q.offerSeq = p.offerSeq + 1 ∧ q.localDesc = some q.offerSeq)
      ps (attemptSync env tl tn sn ps).1 :=
  attemptSyncAux_noretry_offers env (keysA tl) tn sn 0 ps hdone

/-- A peer that is already fully synchronized with the one forwarded track
`"t1"`: re-running the synchronizer adds and removes nothing, yet must
still send an offer. -/
def syncedBob : PeerConnectionState :=
  ⟨3, PCConnState.connected, [some "t1"], [], none, 0, "Bob"⟩

theorem claim10_witness :
    (attemptSync noFailEnv [("t1", ⟨"t1", "s1"⟩)] [("t1", "Alice")] [] [syncedBob]).2.1
        = false ∧
    ((attemptSync noFailEnv [("t1", ⟨"t1", "s1"⟩)] [("t1", "Alice")] [] [syncedBob]).2.2 =
      (List.enumFrom 0 [syncedBob]).map
        (fun ip => (ip.1, OfferMsg.mk "offer" (ip.2.offerSeq + 1)
          [("t1", "Alice")] [])) ∧
    List.Forall₂
      (fun p q => q.offerSeq = p.offerSeq + 1 ∧ q.localDesc = some q.offerSeq)
      [syncedBob]
      (attemptSync noFailEnv [("t1", ⟨"t1", "s1"⟩)] [("t1", "Alice")] [] [syncedBob]).1) :=
  ⟨by decide,
    claim10_offer_every_completed_attempt noFailEnv [("t1", ⟨"t1", "s1"⟩)]
      [("t1", "Alice")] [] [syncedBob] (by decide)⟩

/-- Claim C1: over any reachable room, after a synchronization round that
completes without signaling retry, every peer remaining in the peer list
(the list as the round leaves it, closed-peer removals applied) has as its
sender track-id set exactly the key set of `room.tracks` minus the ids of
the tracks the peer itself is uploading (its receiver track ids); in
particular no such peer is attached as a sender on one of its own inbound
track ids. -/
theorem claim1_sender_sets (r : RoomState) (hr : Reachable r) (envs : Nat → SyncEnv)
    (hdone : (SignalPeerConnections envs r.trackLocals r.trackNames r.streamNames
      r.peerConnections).completed = true) :
    ∀ p ∈ (SignalPeerConnections envs r.trackLocals r.trackNames r.streamNames
        r.peerConnections).peers,
      (∀ t : String, t ∈ senderIds p ↔ (t ∈ keysA r.trackLocals ∧ t ∉ receiverIds p)) ∧
      ∀ t ∈ senderIds p, t ∉ receiverIds p := by
  intro p hp
  have hNL := (reachable_inv hr).1
  have hmain := signalLoopAux_completed_senders envs r.trackLocals r.trackNames
    r.streamNames 25 0 r.peerConnections [] hNL hdone p hp
  exact ⟨hmain, fun t ht => ((hmain t).mp ht).2⟩

/-- Alice's uploaded audio track in the C1 witness room. -/
def trackAlice : RemoteTrack := ⟨"trk-a", "stm-a", 41⟩

/-- The C1 witness room: Alice joins, her track arrives, then Bob joins. -/
def roomW1 : RoomState :=
  joinStep (onTrackStep (joinStep emptyRoom 1 "Alice") 0 trackAlice) 2 "Bob"

theorem roomW1_reachable : Reachable roomW1 :=
  Reachable.step
    (Reachable.step
      (Reachable.step Reachable.init (Step.join emptyRoom 1 "Alice" (by decide)))
      (Step.remoteTrack (joinStep emptyRoom 1 "Alice") 0 trackAlice (by decide)
        (by decide)))
    (Step.join (onTrackStep (joinStep emptyRoom 1 "Alice") 0 trackAlice) 2 "Bob"
      (by decide))

theorem claim1_witness :
    Reachable roomW1 ∧
    (SignalPeerConnections (fun _ => noFailEnv) roomW1.trackLocals roomW1.trackNames
      roomW1.streamNames roomW1.peerConnections).completed = true ∧
    ∀ p ∈ (SignalPeerConnections (fun _ => noFailEnv) roomW1.trackLocals
        roomW1.trackNames roomW1.streamNames roomW1.peerConnections).peers,
      (∀ t : String, t ∈ senderIds p ↔
        (t ∈ keysA roomW1.trackLocals ∧ t ∉ receiverIds p)) ∧
      ∀ t ∈ senderIds p, t ∉ receiverIds p :=
  ⟨roomW1_reachable, by decide,
    claim1_sender_sets roomW1 roomW1_reachable (fun _ => noFailEnv) (by decide)⟩

/-- Claim C5: in every reachable room state, every key of the `trackNames`
label map is a key of the room's forwarded-track map or the local
identifier of some forwarding track stored there; this holds in every state
the teardown of an ingest loop can leave behind (with `track.AddTrack`
modelled from the spec, a forwarding track's local identifier always equals
its origin identifier, §9). -/
theorem claim5_label_keys (r : RoomState) (hr : Reachable r) :
    ∀ k ∈ keysA r.trackNames,
      k ∈ keysA r.trackLocals ∨ ∃ e ∈ r.trackLocals, e.2.localId = k := by
  intro k hk
  exact Or.inl ((reachable_inv hr).2.1 k hk)

/-- The two uploaded tracks of the C5 witness room. -/
def trackAnn : RemoteTrack := ⟨"trk-a5", "stm-a5", 51⟩

def trackBen : RemoteTrack := ⟨"trk-b5", "stm-b5", 52⟩

/-- The C5 witness room: Ann and Ben join and upload, then Ann's ingest
loop tears down — Ben's label entries and forwarding track must survive
consistently. -/
def roomW5 : RoomState :=
  ingestTeardown
    (onTrackStep
      (joinStep (onTrackStep (joinStep emptyRoom 1 "Ann") 0 trackAnn) 2 "Ben")
      1 trackBen)
    trackAnn

theorem roomW5_reachable : Reachable roomW5 :=
  Reachable.step
    (Reachable.step
      (Reachable.step
        (Reachable.step
          (Reachable.step Reachable.init (Step.join emptyRoom 1 "Ann" (by decide)))
          (Step.remoteTrack (joinStep emptyRoom 1 "Ann") 0 trackAnn (by decide)
            (by decide)))
        (Step.join (onTrackStep (joinStep emptyRoom 1 "Ann") 0 trackAnn) 2 "Ben"
          (by decide)))
      (Step.remoteTrack
        (joinStep (onTrackStep (joinStep emptyRoom 1 "Ann") 0 trackAnn) 2 "Ben")
        1 trackBen (by decide) (by decide)))
    (Step.ingestEnd
      (onTrackStep
        (joinStep (onTrackStep (joinStep emptyRoom 1 "Ann") 0 trackAnn) 2 "Ben")
        1 trackBen)
      trackAnn)

theorem claim5_witness :
    Reachable roomW5 ∧
    ∀ k ∈ keysA roomW5.trackNames,
      k ∈ keysA roomW5.trackLocals ∨ ∃ e ∈ roomW5.trackLocals, e.2.localId = k :=
  ⟨roomW5_reachable, claim5_label_keys roomW5 roomW5_reachable⟩

/-- Claim C8: a join with an empty name registers the peer record under the
name `"Anonymous"` (a non-empty name is recorded unchanged), and every
`trackNames` / `streamNames` entry created by that peer's `OnTrack` handler
maps to the peer's recorded name — so to `"Anonymous"` for an
anonymous join. -/
theorem claim8_anonymous_naming (rid nm : String) (pcId : Nat)
    (rooms : List (String × RoomState)) (hrid : rid ≠ "") :
    ((∃ room1,
      lookupA (websocketHandlerPrelude (.msg "join" (some ⟨rid, nm⟩)) false false
        pcId rooms).rooms rid = some room1 ∧
      room1.peerConnections.getLast? =
        some (newPeer pcId (if nm = "" then "Anonymous" else nm))) ∧
    (websocketHandlerPrelude (.msg "join" (some ⟨rid, nm⟩)) false false
      pcId rooms).registered = some (rid, if nm = "" then "Anonymous" else nm)) ∧
    ∀ (r : RoomState), Reachable r →
      ∀ (i : Nat) (hi : i < r.peerConnections.length) (t : RemoteTrack),
        lookupA (onTrackStep r i t).trackNames t.id =
          some (r.peerConnections.get ⟨i, hi⟩).name ∧
        lookupA (onTrackStep r i t).streamNames t.streamId =
          some (r.peerConnections.get ⟨i, hi⟩).name := by
  constructor
  · have hjoin : ¬ (("join" : String) ≠ "join") := fun h => h rfl
    constructor
    · refine ⟨{ (getOrCreateRoom rooms rid).2 with
          peerConnections := (getOrCreateRoom rooms rid).2.peerConnections ++
            [newPeer pcId (if nm = "" then "Anonymous" else nm)] }, ?_, ?_⟩
      · simp only [websocketHandlerPrelude, if_neg hjoin, if_neg hrid,
          Bool.false_eq_true, if_false]
        exact lookupA_updateA_self _ _ _
      · exact List.getLast?_concat _
    · simp only [websocketHandlerPrelude, if_neg hjoin, if_neg hrid,
        Bool.false_eq_true, if_false]
  · intro r hr i hi t
    have hnd := (reachable_inv hr).2.2
    have howner : findOwnerName (pcIdAt r.peerConnections i) r.peerConnections =
        (r.peerConnections.get ⟨i, hi⟩).name := by
      rw [pcIdAt_get r.peerConnections i hi]
      exact findOwnerName_get r.peerConnections i hi hnd
    constructor
    · simp only [onTrackStep, trackAddTrack, ne_eq, not_true_eq_false, if_false,
        ite_not]
      rw [lookupA_updateA_self, howner]
    · simp only [onTrackStep]
      rw [lookupA_updateA_self, howner]

theorem claim8_witness :
    (("room8" : String) ≠ "") ∧
    (((∃ room1,
      lookupA (websocketHandlerPrelude (.msg "join" (some ⟨"room8", ""⟩)) false false
        4 []).rooms "room8" = some room1 ∧
      room1.peerConnections.getLast? =
        some (newPeer 4 (if ("" : String) = "" then "Anonymous" else ""))) ∧
    (websocketHandlerPrelude (.msg "join" (some ⟨"room8", ""⟩)) false false
      4 []).registered = some ("room8", if ("" : String) = "" then "Anonymous" else "")) ∧
    ∀ (r : RoomState), Reachable r →
      ∀ (i : Nat) (hi : i < r.peerConnections.length) (t : RemoteTrack),
        lookupA (onTrackStep r i t).trackNames t.id =
          some (r.peerConnections.get ⟨i, hi⟩).name ∧
        lookupA (onTrackStep r i t).streamNames t.streamId =
          some (r.peerConnections.get ⟨i, hi⟩).name) :=
  ⟨by decide, claim8_anonymous_naming "room8" "" 4 [] (by decide)⟩

end WHIPTube
